import Mathlib

/-!
# Verification of the vixio-backend segmented video pipeline

Shallow embedding of the Go program `vixio-backend` (a gin HTTP service
that assembles narrated videos from a topic and a scene list).  Strings
are modelled as `List Char`; external collaborators (Google TTS, TMDB,
placeholder service, ffmpeg) are modelled as boolean/optional oracles
passed in as parameters; filesystem effects are modelled as explicit
effect traces or small state records.

The embedding follows the source functions:
* `splitText` and `downloadGoogleTTS_Smart` — text chunking and chunked
  speech synthesis (src/unnamed/part_003, lines 301-372);
* `padItems` — the script-normalization padding loop in `main`
  (src/unnamed/part_003, lines 532-541);
* `saveMedia` and its three call sites — media resolution
  (src/unnamed/part_003, lines 71-105);
* `renderSegment` — the segment renderer (src/unnamed/part_003,
  lines 237-278);
* `renderLoop` — the handler's render sequence (src/unnamed/part_003,
  lines 543-572);
* `stitchVideos` — the stitcher (src/unnamed/part_003, lines 281-298).
-/

/-! ## Definitions -/

/-- Whitespace test matching Go's `unicode.IsSpace` on the characters the
pipeline can ever meet (ASCII space classes plus NEL and NBSP).  Used by
the embeddings of `strings.TrimSpace` and `strings.Fields`. -/
def isGoSpace (c : Char) : Bool :=
  c == ' ' || c == '\t' || c == '\n' || c == '\r' ||
    c.toNat == 11 || c.toNat == 12 || c.toNat == 133 || c.toNat == 160

/-- Embedding of Go `strings.TrimSpace` on `List Char`. -/
def trimGo (s : List Char) : List Char :=
  ((s.dropWhile isGoSpace).reverse.dropWhile isGoSpace).reverse

/-- Accumulator worker for `fieldsGo`; `cur` holds the current word
reversed. -/
def fieldsAux : List Char → List Char → List (List Char)
  | [], cur => if cur.isEmpty then [] else [cur.reverse]
  | c :: rest, cur =>
    if isGoSpace c then
      if cur.isEmpty then fieldsAux rest [] else cur.reverse :: fieldsAux rest []
    else
      fieldsAux rest (c :: cur)

/-- Embedding of Go `strings.Fields`: split around runs of whitespace,
producing no empty words. -/
def fieldsGo (s : List Char) : List (List Char) :=
  fieldsAux s []

/-- Embedding of Go `strings.Split(text, ". ")`: split around each
leftmost non-overlapping occurrence of the two-character separator. -/
def splitDotSpace : List Char → List (List Char)
  | '.' :: ' ' :: rest => [] :: splitDotSpace rest
  | c :: rest =>
    match splitDotSpace rest with
    | [] => [[c]]
    | s :: ss => (c :: s) :: ss
  | [] => [[]]

/-- `strings.HasSuffix(s, ".") || ... "!" || ... "?"` from `splitText`. -/
def endsPunct (s : List Char) : Bool :=
  match s.getLast? with
  | some c => c == '.' || c == '!' || c == '?'
  | none => false

/-- The greedy word-packing loop of `splitText` (src/unnamed/part_003,
lines 352-368): `cur` is `currentChunk`; a word is appended when it fits
together with a joining space, otherwise the current chunk is flushed
(even when empty) and the word starts the next chunk. -/
def packLoop (limit : Nat) : List (List Char) → List Char → List (List Char)
  | [], cur => if cur.length > 0 then [cur] else []
  | w :: ws, cur =>
    if cur.length + w.length + 1 ≤ limit then
      packLoop limit ws (if cur.length > 0 then cur ++ ' ' :: w else w)
    else
      cur :: packLoop limit ws w

/-- Chunks contributed by one raw sentence in `splitText`: trim, skip if
empty, append a period when there is no terminal punctuation, keep the
sentence whole when it is within the limit, otherwise pack its
whitespace-separated words greedily. -/
def sentenceChunks (limit : Nat) (raw : List Char) : List (List Char) :=
  let s := trimGo raw
  if s.isEmpty then []
  else
    let s := if endsPunct s then s else s ++ ['.']
    if s.length ≤ limit then [s] else packLoop limit (fieldsGo s) []

/-- Embedding of `splitText` (src/unnamed/part_003, lines 335-372): split
the narration text into provider-sized chunks, sentence-first. -/
def splitText (text : List Char) (limit : Nat) : List (List Char) :=
  (splitDotSpace text).flatMap (sentenceChunks limit)

/-- Embedding of `downloadGoogleTTS_Smart` (src/unnamed/part_003, lines
301-333).  `createOk` models whether `os.Create(outFile)` succeeds; `fetch
chunk` models one provider request: `none` for a network error or a
non-200 status (both skipped by the loop), `some bytes` for a 200 response
body that `io.Copy` appends to the output file.  The result is `none`
exactly when the Go function returns a non-nil error, otherwise `some` of
the byte stream written to the output file. -/
def downloadGoogleTTS_Smart (createOk : Bool) (fetch : List Char → Option (List Nat))
    (text : List Char) : Option (List Nat) :=
  if createOk then
    some ((splitText text 180).foldl (fun acc chunk =>
      let chunk := trimGo chunk
      if chunk.length < 2 then acc
      else
        match fetch chunk with
        | some bytes => acc ++ bytes
        | none => acc) [])
  else none

/-- One parsed narration item (src/unnamed/part_003, lines 26-29). -/
structure ScriptItem where
  title : String
  details : String
deriving DecidableEq

/-- The fixed generic filler appended by the padding loop
(src/unnamed/part_003, lines 536-539). -/
def fillerItem : ScriptItem :=
  ⟨"Extra Item", "Here is another item related to the topic."⟩

/-- Embedding of the padding check in `main` (src/unnamed/part_003, lines
532-541): while the parsed items sequence is shorter than the scene count,
append the generic filler item. -/
def padItems (items : List ScriptItem) (n : Nat) : List ScriptItem :=
  if items.length < n then padItems (items ++ [fillerItem]) n else items
termination_by n - items.length
decreasing_by simp [List.length_append]; omega

/-- A named position in the final video. -/
inductive Slot
  | intro
  | scene (i : Nat)
  | outro
deriving DecidableEq

/-- The segment output path the handler uses for each slot
(src/unnamed/part_003, lines 548, 557, 569). -/
def slotPath : Slot → List Char
  | .intro => "output/seg_intro.mp4".toList
  | .scene i => "output/seg_".toList ++ (toString i).toList ++ ".mp4".toList
  | .outro => "output/seg_outro.mp4".toList

/-- The scene loop of the handler (src/unnamed/part_003, lines 555-566):
iterate over the script items with their index, break once the index
reaches the scene count `n`, and append the segment path when the render
succeeded (`ok`). -/
def renderScenes (ok : Nat → Bool) (n : Nat) : List ScriptItem → Nat → List (List Char)
  | [], _ => []
  | _ :: rest, i =>
    if n ≤ i then []
    else (if ok i then [slotPath (.scene i)] else []) ++ renderScenes ok n rest (i + 1)

/-- The items actually consumed by the scene loop: the loop body runs for
an item exactly when its index is below the scene count. -/
def attemptedScenes : List ScriptItem → Nat → Nat → List ScriptItem
  | [], _, _ => []
  | it :: rest, n, i => if n ≤ i then [] else it :: attemptedScenes rest n (i + 1)

/-- The full render sequence of the handler (src/unnamed/part_003, lines
543-572): intro first, then the scene loop, then outro; a slot contributes
its segment file exactly when its render returned no error (`ok`). -/
def renderLoop (ok : Slot → Bool) (items : List ScriptItem) (n : Nat) : List (List Char) :=
  (if ok .intro then [slotPath .intro] else []) ++
    renderScenes (fun i => ok (.scene i)) n items 0 ++
      (if ok .outro then [slotPath .outro] else [])

/-- Declared slot order for a request with `n` scenes. -/
def slotOrder (n : Nat) : List Slot :=
  .intro :: ((List.range n).map .scene ++ [.outro])

/-- Stitcher failures: the guard for an empty segment list and a non-zero
ffmpeg exit status. -/
inductive StitchErr
  | noSegments
  | concatFailed
deriving DecidableEq

/-- The filesystem slice the stitcher touches: the manifest
`output/list.txt` and the final artifact `output/final_movie.mp4`
(contents abstracted as the list of concatenated source paths). -/
structure StitchFS where
  listTxt : Option (List (List Char))
  finalArtifact : Option (List (List Char))
deriving DecidableEq

/-- One manifest line `file <quoted absolute path>` (src/unnamed/part_003,
line 288); `Char.ofNat 39` is the single-quote character. -/
def manifestLine (cwd f : List Char) : List Char :=
  "file ".toList ++ [Char.ofNat 39] ++ cwd ++ f ++ [Char.ofNat 39]

/-- Embedding of `stitchVideos` (src/unnamed/part_003, lines 281-298).
`ffmpegOk` models the exit status of the concat subprocess; `cwd` models
the `filepath.Abs` prefix.  With no segment files it errors out before any
filesystem effect; otherwise it writes the manifest, removes the stale
final artifact, and on ffmpeg success writes the new artifact. -/
def stitchVideos (ffmpegOk : Bool) (cwd : List Char) (files : List (List Char))
    (fs : StitchFS) : Except StitchErr Unit × StitchFS :=
  if files.length = 0 then (.error .noSegments, fs)
  else
    let fs1 : StitchFS := { fs with listTxt := some (files.map (manifestLine cwd)) }
    let fs2 : StitchFS := { fs1 with finalArtifact := none }
    if ffmpegOk then
      (.ok (), { fs2 with finalArtifact := some (files.map (fun f => cwd ++ f)) })
    else
      (.error .concatFailed, fs2)

/-- Request-level fields read by the `saveMedia` closure. -/
structure ReqCtx where
  category : List Char
  videoType : List Char
deriving DecidableEq

/-- Observable resolution steps of `saveMedia`. -/
inductive MediaStep
  | savedUpload
  | tmdbAttempt
  | placeholderStep
deriving DecidableEq

/-- Embedding of Go `filepath.Ext`: the suffix starting at the final dot,
empty when the name has no dot. -/
def goExt (name : List Char) : List Char :=
  if name.contains '.' then
    '.' :: (name.reverse.takeWhile (fun c => !(c == '.'))).reverse
  else []

/-- Embedding of the `saveMedia` closure (src/unnamed/part_003, lines
71-96).  `upload` is the uploaded file's name when `c.FormFile` succeeded;
`tmdbOk` models whether `downloadTMDBPoster` returned nil (any of its
failure modes — missing key, network error, no result — is `false`).  The
result is the returned path together with the trace of resolution steps
taken. -/
def saveMedia (ctx : ReqCtx) (upload : Option (List Char)) (tmdbOk : Bool)
    (formKey fallbackName : List Char) (tryTMDB : Bool) :
    List Char × List MediaStep :=
  match upload with
  | some filename =>
    let ext := if (goExt filename).isEmpty then ".jpg".toList else goExt filename
    ("output/".toList ++ formKey ++ ext, [.savedUpload])
  | none =>
    let savePath := "output/".toList ++ formKey ++ ".jpg".toList
    if tryTMDB && ctx.category == "movie".toList && !fallbackName.isEmpty then
      if tmdbOk then (savePath, [.tmdbAttempt])
      else (savePath, [.tmdbAttempt, .placeholderStep])
    else (savePath, [.placeholderStep])

/-- Call site for the intro slot (src/unnamed/part_003, line 99). -/
def resolveIntro (ctx : ReqCtx) (upload : Option (List Char)) (tmdbOk : Bool)
    (topic : List Char) : List Char × List MediaStep :=
  saveMedia ctx upload tmdbOk "media_intro".toList topic false

/-- Call site for the outro slot (src/unnamed/part_003, line 100). -/
def resolveOutro (ctx : ReqCtx) (upload : Option (List Char)) (tmdbOk : Bool) :
    List Char × List MediaStep :=
  saveMedia ctx upload tmdbOk "media_outro".toList "Thanks for watching!".toList false

/-- Call site for scene slot `i` (src/unnamed/part_003, lines 102-105). -/
def resolveScene (ctx : ReqCtx) (upload : Option (List Char)) (tmdbOk : Bool)
    (i : Nat) (sceneName : List Char) : List Char × List MediaStep :=
  saveMedia ctx upload tmdbOk ("media_".toList ++ (toString i).toList) sceneName true

/-- Renderer failures: the TTS step and the mux step. -/
inductive RSErr
  | ttsFailed
  | muxFailed
deriving DecidableEq

/-- Filesystem effects of one `renderSegment` invocation, in order. -/
inductive RSEffect
  | createAudio
  | removeOutput
  | runMux
  | removeAudio
deriving DecidableEq

/-- Embedding of `renderSegment` (src/unnamed/part_003, lines 237-278).
The TTS step runs first, creating the temporary audio file exactly when
`createOk`; on TTS failure the function returns at once.  Otherwise the
stale output is removed, ffmpeg is run (`muxOk` models its exit status),
and the audio file is removed before the error check on either outcome. -/
def renderSegment (createOk muxOk : Bool) (fetch : List Char → Option (List Nat))
    (text : List Char) : Except RSErr Unit × List RSEffect :=
  match downloadGoogleTTS_Smart createOk fetch text with
  | none => (.error .ttsFailed, [])
  | some _ =>
    if muxOk then
      (.ok (), [.createAudio, .removeOutput, .runMux, .removeAudio])
    else
      (.error .muxFailed, [.createAudio, .removeOutput, .runMux, .removeAudio])

/-- A narration text consisting of a single 181-character word: the
smallest shape on which `splitText` emits a chunk over the 180-character
provider limit. -/
def longWordText : List Char := List.replicate 181 'a'

/-! ## Sanity checks on concrete inputs -/

example : splitText "Hi".toList 180 = ["Hi.".toList] := by decide

example : splitText "Hello. World!".toList 180 = ["Hello.".toList, "World!".toList] := by
  decide

example : splitText "abcdef".toList 3 = [[], "abcdef.".toList] := by decide

example : goExt "clip.mov".toList = ".mov".toList := by decide

example : goExt "clip".toList = [] := by decide

/-! ## Content-preservation lemmas for `splitText` -/

theorem splitDotSpace_flatMap_filter (P : Char → Bool) (hdot : P '.' = false)
    (hsp : P ' ' = false) (l : List Char) :
    (splitDotSpace l).flatMap (List.filter P) = l.filter P := by
  induction l using splitDotSpace.induct with
  | case1 rest ih =>
    simp [splitDotSpace, List.filter_cons, hdot, hsp, ih]
  | case2 c rest hne hnil ih =>
    rw [hnil] at ih
    simp only [List.flatMap_nil] at ih
    rw [splitDotSpace.eq_2 c rest hne, hnil]
    cases hc : P c <;> simp [List.filter_cons, hc, ← ih]
  | case3 c rest hne s ss hs ih =>
    rw [hs] at ih
    simp only [List.flatMap_cons] at ih
    rw [splitDotSpace.eq_2 c rest hne, hs]
    cases hc : P c <;>
      simp [List.flatMap_cons, List.filter_cons, hc, List.cons_append, ← ih]
  | case4 => simp [splitDotSpace]

theorem filter_dropWhile_isGoSpace (P : Char → Bool)
    (hws : ∀ c, isGoSpace c = true → P c = false) (l : List Char) :
    (l.dropWhile isGoSpace).filter P = l.filter P := by
  induction l with
  | nil => rfl
  | cons c rest ih =>
    cases hc : isGoSpace c
    · simp [List.dropWhile_cons, hc]
    · simp [List.dropWhile_cons, hc, ih, List.filter_cons, hws c hc]

theorem filter_trimGo (P : Char → Bool)
    (hws : ∀ c, isGoSpace c = true → P c = false) (l : List Char) :
    (trimGo l).filter P = l.filter P := by
  unfold trimGo
  rw [List.filter_reverse, filter_dropWhile_isGoSpace P hws, List.filter_reverse,
    List.reverse_reverse, filter_dropWhile_isGoSpace P hws]

theorem fieldsAux_flatten (l cur : List Char) :
    (fieldsAux l cur).flatten = cur.reverse ++ l.filter (fun c => !(isGoSpace c)) := by
  induction l generalizing cur with
  | nil =>
    cases hcur : cur.isEmpty
    · simp [fieldsAux, hcur]
    · simp [fieldsAux, hcur, List.isEmpty_iff.mp hcur]
  | cons c rest ih =>
    cases hc : isGoSpace c
    · simp [fieldsAux, hc, ih, List.filter_cons]
    · cases hcur : cur.isEmpty
      · simp [fieldsAux, hc, hcur, ih, List.filter_cons]
      · simp [fieldsAux, hc, hcur, List.isEmpty_iff.mp hcur, ih, List.filter_cons]

theorem fieldsAux_no_space (l cur : List Char)
    (hcur : ∀ ch ∈ cur, isGoSpace ch = false) :
    ∀ w ∈ fieldsAux l cur, ∀ ch ∈ w, isGoSpace ch = false := by
  induction l generalizing cur with
  | nil =>
    intro w hw
    cases hcur' : cur.isEmpty
    · simp [fieldsAux, hcur'] at hw
      subst hw
      intro ch hch
      exact hcur ch (by simpa using hch)
    · simp [fieldsAux, hcur'] at hw
  | cons c rest ih =>
    intro w hw
    cases hc : isGoSpace c
    · simp only [fieldsAux, hc, Bool.false_eq_true, if_false] at hw
      refine ih (c :: cur) ?_ w hw
      intro ch hch
      rcases List.mem_cons.mp hch with rfl | h
      · exact hc
      · exact hcur ch h
    · cases hcur' : cur.isEmpty
      · simp only [fieldsAux, hc, hcur', if_true, Bool.false_eq_true, if_false] at hw
        rcases List.mem_cons.mp hw with rfl | h
        · intro ch hch
          exact hcur ch (by simpa using hch)
        · exact ih [] (by simp) w h
      · simp only [fieldsAux, hc, hcur', if_true] at hw
        exact ih [] (by simp) w hw

theorem packLoop_flatten_filter (P : Char → Bool) (hsp : P ' ' = false)
    (limit : Nat) (ws : List (List Char)) (cur : List Char) :
    ((packLoop limit ws cur).flatten).filter P = (cur ++ ws.flatten).filter P := by
  induction ws generalizing cur with
  | nil =>
    cases cur with
    | nil => simp [packLoop]
    | cons a l => simp [packLoop]
  | cons w ws ih =>
    rw [packLoop.eq_2]
    by_cases hfit : cur.length + w.length + 1 ≤ limit
    · rw [if_pos hfit]
      cases cur with
      | nil =>
        rw [if_neg (by simp)]
        rw [ih]
        simp [List.filter_append]
      | cons a l =>
        rw [if_pos (by simp)]
        rw [ih]
        simp [List.filter_append, List.filter_cons, hsp, List.append_assoc]
    · rw [if_neg hfit]
      simp [List.flatten_cons, List.filter_append, ih]

theorem packLoop_chunk_bound (limit : Nat) (ws : List (List Char)) (cur : List Char)
    (hcur : cur.length ≤ limit ∨ ∀ ch ∈ cur, isGoSpace ch = false)
    (hws : ∀ w ∈ ws, ∀ ch ∈ w, isGoSpace ch = false) :
    ∀ c ∈ packLoop limit ws cur,
      c.length ≤ limit ∨ ∀ ch ∈ c, isGoSpace ch = false := by
  induction ws generalizing cur with
  | nil =>
    intro c hc
    by_cases h : cur.length > 0 <;> simp [packLoop, h] at hc
    subst hc
    exact hcur
  | cons w ws ih =>
    intro c hc
    rw [packLoop.eq_2] at hc
    by_cases hfit : cur.length + w.length + 1 ≤ limit
    · rw [if_pos hfit] at hc
      refine ih _ ?_ (fun v hv => hws v (List.mem_cons_of_mem _ hv)) c hc
      left
      by_cases hpos : cur.length > 0
      · rw [if_pos hpos]
        simp only [List.length_append, List.length_cons]
        omega
      · rw [if_neg hpos]
        omega
    · rw [if_neg hfit] at hc
      rcases List.mem_cons.mp hc with rfl | h
      · exact hcur
      · refine ih w ?_ (fun v hv => hws v (List.mem_cons_of_mem _ hv)) c h
        right
        exact hws w (List.mem_cons_self _ _)

theorem sentenceChunks_flatten_filter (P : Char → Bool) (hdot : P '.' = false)
    (hws : ∀ c, isGoSpace c = true → P c = false) (limit : Nat) (raw : List Char) :
    ((sentenceChunks limit raw).flatten).filter P = raw.filter P := by
  unfold sentenceChunks
  rw [← filter_trimGo P hws raw]
  set s := trimGo raw with hs
  by_cases hempty : s.isEmpty
  · simp [hempty, List.isEmpty_iff.mp hempty]
  · rw [if_neg hempty]
    have hdotapp : ∀ t : List Char,
        (if endsPunct t then t else t ++ ['.']).filter P = t.filter P := by
      intro t
      by_cases hp : endsPunct t
      · rw [if_pos hp]
      · rw [if_neg hp]
        simp [List.filter_append, List.filter_cons, hdot]
    set s2 := if endsPunct s then s else s ++ ['.'] with hs2
    by_cases hlen : s2.length ≤ limit
    · rw [if_pos hlen]
      simpa using hdotapp s
    · rw [if_neg hlen]
      rw [packLoop_flatten_filter P (hws ' ' (by decide)) limit (fieldsGo s2) []]
      rw [List.nil_append]
      unfold fieldsGo
      rw [fieldsAux_flatten s2 []]
      rw [List.reverse_nil, List.nil_append]
      rw [List.filter_filter]
      have hcongr : List.filter (fun a => P a && !(isGoSpace a)) s2 = List.filter P s2 := by
        refine List.filter_congr ?_
        intro a _
        cases hws' : isGoSpace a
        · simp
        · simp [hws a hws']
      rw [hcongr]
      exact hdotapp s

theorem splitText_flatten_filter (P : Char → Bool) (hdot : P '.' = false)
    (hws : ∀ c, isGoSpace c = true → P c = false) (text : List Char) (limit : Nat) :
    ((splitText text limit).flatten).filter P = text.filter P := by
  have h1 : ∀ L : List (List Char),
      ((L.flatMap (sentenceChunks limit)).flatten).filter P = L.flatMap (List.filter P) := by
    intro L
    induction L with
    | nil => rfl
    | cons raw L ih =>
      rw [List.flatMap_cons, List.flatten_append, List.filter_append, ih,
        sentenceChunks_flatten_filter P hdot hws limit raw, List.flatMap_cons]
  rw [splitText, h1, splitDotSpace_flatMap_filter P hdot (hws ' ' (by decide))]

theorem splitText_oversized_no_space (text : List Char) (limit : Nat) (c : List Char)
    (hmem : c ∈ splitText text limit) (hlen : limit < c.length) :
    c.all (fun ch => !(isGoSpace ch)) = true := by
  rw [List.all_eq_true]
  rcases List.mem_flatMap.mp hmem with ⟨raw, _, hc⟩
  unfold sentenceChunks at hc
  by_cases hempty : (trimGo raw).isEmpty
  · simp [hempty] at hc
  · rw [if_neg hempty] at hc
    set s2 := if endsPunct (trimGo raw) then trimGo raw else trimGo raw ++ ['.'] with hs2
    by_cases hl : s2.length ≤ limit
    · rw [if_pos hl] at hc
      simp only [List.mem_singleton] at hc
      subst hc
      omega
    · rw [if_neg hl] at hc
      have hwords := fieldsAux_no_space s2 [] (by simp)
      have := packLoop_chunk_bound limit (fieldsGo s2) [] (Or.inl (by simp)) hwords c hc
      rcases this with h | h
      · omega
      · intro ch hch
        simpa using h ch hch

/-! ## Shape lemmas for padding and the render loop -/

theorem padItems_eq (items : List ScriptItem) (n : Nat) :
    padItems items n = items ++ List.replicate (n - items.length) fillerItem := by
  induction items, n using padItems.induct with
  | case1 items n h ih =>
    rw [padItems, if_pos h, ih]
    have hrepl : n - items.length = (n - (items ++ [fillerItem]).length) + 1 := by
      simp [List.length_append]
      omega
    rw [hrepl, List.replicate_succ]
    simp [List.length_append]
  | case2 items n h =>
    rw [padItems, if_neg h]
    have : n - items.length = 0 := by omega
    simp [this]

theorem attemptedScenes_eq_take (items : List ScriptItem) (n i : Nat) :
    attemptedScenes items n i = items.take (n - i) := by
  induction items generalizing i with
  | nil => simp [attemptedScenes]
  | cons it rest ih =>
    by_cases h : n ≤ i
    · simp [attemptedScenes, h, Nat.sub_eq_zero_of_le h]
    · rw [attemptedScenes, if_neg h, ih]
      have : n - i = (n - (i + 1)) + 1 := by omega
      rw [this, List.take_succ_cons]

theorem renderScenes_eq_filter (ok : Nat → Bool) (n : Nat)
    (items : List ScriptItem) (i : Nat) :
    renderScenes ok n items i =
      (((List.range' i (min items.length (n - i))).filter ok).map
        (fun j => slotPath (.scene j))) := by
  induction items generalizing i with
  | nil => simp [renderScenes]
  | cons it rest ih =>
    by_cases h : n ≤ i
    · simp [renderScenes, h, Nat.sub_eq_zero_of_le h]
    · rw [renderScenes, if_neg h, ih]
      have hmin : min (it :: rest).length (n - i) = (min rest.length (n - (i + 1))) + 1 := by
        simp [List.length_cons]
        omega
      rw [hmin, List.range'_succ, List.filter_cons]
      by_cases hok : ok i <;> simp [hok]

/-! ## Claim theorems -/

/-- C1: for every scene list of length `n`, after normalization the items
sequence is the parsed sequence plus filler items appended until the
length reaches `n` (so its length is `max` of the two, exactly `n` when
the parse came up short, and untouched — never truncated — when the parse
was longer), and the render loop consumes exactly the first `n` items,
ignoring indices at or beyond `n`. -/
theorem claim1_normalized_items (items : List ScriptItem) (n : Nat) :
    padItems items n = items ++ List.replicate (n - items.length) fillerItem ∧
    (padItems items n).length = max items.length n ∧
    attemptedScenes (padItems items n) n 0 = (padItems items n).take n ∧
    (attemptedScenes (padItems items n) n 0).length = n := by
  refine ⟨padItems_eq items n, ?_, ?_, ?_⟩
  · rw [padItems_eq]
    simp [List.length_append]
    omega
  · rw [attemptedScenes_eq_take]
    simp
  · rw [attemptedScenes_eq_take, padItems_eq]
    simp [List.length_append]
    omega

/-- C2 (amended): chunked speech synthesis reports failure exactly when
creating the output file fails — never because of chunk outcomes.  A chunk
whose provider request fails is skipped silently, and the call reports
success even when every chunk failed and the output file stayed empty. -/
theorem claim2_error_iff_create_fails (createOk : Bool)
    (fetch : List Char → Option (List Nat)) (text : List Char) :
    (downloadGoogleTTS_Smart createOk fetch text).isSome = createOk := by
  cases createOk <;> simp [downloadGoogleTTS_Smart]

/-- C2 counterexample: with every provider request failing, the output
file ends up empty (`some []` — no bytes written) yet the synthesis call
reports success, refuting "reports failure exactly when no chunk's bytes
were written". -/
theorem claim2_counterexample :
    downloadGoogleTTS_Smart true (fun _ => none) "Hello world".toList = some [] := by
  decide

/-- C3: with an empty surviving-segment list the stitcher fails with the
no-segments error and performs no filesystem effect, so no final artifact
is produced. -/
theorem claim3_empty_segments_error (ffmpegOk : Bool) (cwd : List Char) (fs : StitchFS) :
    stitchVideos ffmpegOk cwd [] fs = (.error .noSegments, fs) := by
  simp [stitchVideos]

/-- C4: when every slot's render fails, the list handed to the stitcher is
empty, the request fails with the no-segments error, and any final
artifact left from a previous request is neither deleted nor
overwritten. -/
theorem claim4_no_artifact_touch (ffmpegOk : Bool) (cwd : List Char)
    (items : List ScriptItem) (n : Nat) (fs : StitchFS) :
    stitchVideos ffmpegOk cwd (renderLoop (fun _ => false) items n) fs =
      (.error .noSegments, fs) ∧
    (stitchVideos ffmpegOk cwd (renderLoop (fun _ => false) items n) fs).2.finalArtifact =
      fs.finalArtifact := by
  have h : renderLoop (fun _ => false) items n = [] := by
    unfold renderLoop
    rw [renderScenes_eq_filter]
    simp
  rw [h]
  exact ⟨by simp [stitchVideos], by simp [stitchVideos]⟩

/-- C5 (amended): a chunk produced by the text-splitting step can exceed
the provider limit, but only when it is a single whitespace-free word:
every over-limit chunk contains no whitespace character at all.
Multi-word chunks never exceed the limit. -/
theorem claim5_oversized_chunk_no_space (text : List Char) (c : List Char)
    (hmem : c ∈ splitText text 180) (hlen : 180 < c.length) :
    c.all (fun ch => !(isGoSpace ch)) = true :=
  splitText_oversized_no_space text 180 c hmem hlen

set_option maxRecDepth 4000 in
/-- C5 counterexample: a single 181-character word yields a chunk of 182
characters (the word plus the appended period), exceeding the
180-character provider limit, refuting "every chunk has length at most
180, including the case of an over-long word". -/
theorem claim5_counterexample :
    (splitText longWordText 180).any (fun c => decide (180 < c.length)) = true := by
  decide

set_option maxRecDepth 4000 in
theorem claim5_witness :
    ((List.replicate 181 'a' ++ ['.']).all (fun ch => !(isGoSpace ch))) = true :=
  claim5_oversized_chunk_no_space longWordText (List.replicate 181 'a' ++ ['.'])
    (by decide) (by decide)

/-- C6 (amended): concatenating the chunks in order reconstructs the
original text up to whitespace normalization and period adjustment: after
deleting whitespace and period characters the concatenation equals the
original text.  (Periods are not preserved exactly: the splitter appends a
period to a sentence lacking terminal punctuation and re-normalizes the
periods consumed by the sentence separator; all other non-whitespace
characters survive.) -/
theorem claim6_reconstruct_modulo_ws_and_periods (text : List Char) :
    ((splitText text 180).flatten).filter (fun c => !(isGoSpace c) && !(c == '.')) =
      text.filter (fun c => !(isGoSpace c) && !(c == '.')) :=
  splitText_flatten_filter _ (by decide) (fun c h => by simp [h]) text 180

/-- C6 counterexample: for the two-character text `Hi` the single chunk is
`Hi.` — after deleting whitespace the sides still differ (an appended
period is a non-whitespace alteration), refuting reconstruction up to
whitespace normalization only. -/
theorem claim6_counterexample :
    ¬ (((splitText "Hi".toList 180).flatten).filter (fun c => !(isGoSpace c)) =
        "Hi".toList.filter (fun c => !(isGoSpace c))) := by
  decide

/-- C7: the file list handed to the stitcher is exactly the canonical slot
sequence `[intro, scene_0, ..., scene_{n-1}, outro]` filtered to the slots
whose render succeeded (absent slots skipped, survivors never reordered),
and the manifest the stitcher writes lists exactly those files in the same
order. -/
theorem claim7_segment_order (ok : Slot → Bool) (items : List ScriptItem) (n : Nat)
    (ffmpegOk : Bool) (cwd : List Char) (fs : StitchFS) :
    renderLoop ok (padItems items n) n = ((slotOrder n).filter ok).map slotPath ∧
    (stitchVideos ffmpegOk cwd (((slotOrder n).filter ok).map slotPath) fs).2.listTxt =
      (if ((slotOrder n).filter ok).map slotPath = [] then fs.listTxt
       else some ((((slotOrder n).filter ok).map slotPath).map (manifestLine cwd))) := by
  constructor
  · unfold renderLoop slotOrder
    rw [renderScenes_eq_filter]
    have hlen : n ≤ (padItems items n).length := by
      rw [padItems_eq]
      simp [List.length_append]
      omega
    have hmin : min (padItems items n).length (n - 0) = n := by omega
    rw [hmin, List.range_eq_range']
    by_cases hi : ok .intro <;> by_cases ho : ok .outro <;>
      simp [hi, ho, List.filter_append, List.filter_cons, List.filter_map, List.map_map,
        Function.comp_def]
  · set L := ((slotOrder n).filter ok).map slotPath with hL
    by_cases hnil : L = []
    · simp [stitchVideos, hnil]
    · have hlen : ¬ L.length = 0 := by simpa [List.length_eq_zero] using hnil
      cases ffmpegOk <;> simp [stitchVideos, hlen, hnil]

/-- C8: for a slot with no uploaded file and a failing external lookup,
media resolution reports no error: the lookup failure is swallowed, the
last resolution step taken is always the placeholder step, and the
returned file path is non-empty. -/
theorem claim8_resolver_total (ctx : ReqCtx) (formKey fallbackName : List Char)
    (tryTMDB : Bool) :
    0 < (saveMedia ctx none false formKey fallbackName tryTMDB).1.length ∧
    (saveMedia ctx none false formKey fallbackName tryTMDB).2.getLast? =
      some .placeholderStep := by
  simp only [saveMedia]
  constructor
  · split <;> simp
  · split <;> simp

/-- C9: whenever the segment renderer created the temporary audio file,
that file is removed before the renderer returns, on the success path and
on the failure path of the mux step alike: the effect trace is always
create, remove stale output, run mux, remove audio. -/
theorem claim9_audio_always_removed (createOk muxOk : Bool)
    (fetch : List Char → Option (List Nat)) (text : List Char)
    (h : RSEffect.createAudio ∈ (renderSegment createOk muxOk fetch text).2) :
    (renderSegment createOk muxOk fetch text).2 =
      [.createAudio, .removeOutput, .runMux, .removeAudio] := by
  cases createOk
  · simp [renderSegment, downloadGoogleTTS_Smart] at h
  · cases muxOk <;> simp [renderSegment, downloadGoogleTTS_Smart]

theorem claim9_witness :
    (renderSegment true false (fun _ => none) "Hi".toList).2 =
      [.createAudio, .removeOutput, .runMux, .removeAudio] :=
  claim9_audio_always_removed true false (fun _ => none) "Hi".toList (by decide)

/-- C10: the external media-search lookup is attempted exactly when there
is no upload, the slot allows lookup, the request category is the exact
string `movie`, and the fallback label is non-empty; the intro and outro
call sites pass the lookup flag as false and therefore never attempt it,
while the scene call site attempts it under exactly the remaining
conditions. -/
theorem claim10_tmdb_gating (ctx : ReqCtx) (upload : Option (List Char)) (tmdbOk : Bool)
    (formKey fallbackName topic sceneName : List Char) (tryTMDB : Bool) (i : Nat) :
    ((saveMedia ctx upload tmdbOk formKey fallbackName tryTMDB).2.contains .tmdbAttempt = true ↔
      (upload = none ∧ tryTMDB = true ∧ ctx.category = "movie".toList ∧ fallbackName ≠ [])) ∧
    (resolveIntro ctx upload tmdbOk topic).2.contains .tmdbAttempt = false ∧
    (resolveOutro ctx upload tmdbOk).2.contains .tmdbAttempt = false ∧
    ((resolveScene ctx upload tmdbOk i sceneName).2.contains .tmdbAttempt = true ↔
      (upload = none ∧ ctx.category = "movie".toList ∧ sceneName ≠ [])) := by
  refine ⟨?_, ?_, ?_, ?_⟩
  · cases upload with
    | some filename => simp [saveMedia]
    | none =>
      cases tryTMDB
      · simp [saveMedia]
      · by_cases hcat : ctx.category = "movie".toList
        · by_cases hfb : fallbackName = []
          · cases tmdbOk <;> simp [saveMedia, hcat, hfb, beq_iff_eq]
          · cases tmdbOk <;> simp [saveMedia, hcat, hfb, List.isEmpty_iff, beq_iff_eq]
        · cases tmdbOk <;> simp_all [saveMedia, beq_iff_eq]
  · cases upload with
    | some filename => simp [resolveIntro, saveMedia]
    | none => simp [resolveIntro, saveMedia]
  · cases upload with
    | some filename => simp [resolveOutro, saveMedia]
    | none => simp [resolveOutro, saveMedia]
  · cases upload with
    | some filename => simp [resolveScene, saveMedia]
    | none =>
      by_cases hcat : ctx.category = "movie".toList
      · by_cases hfb : sceneName = []
        · cases tmdbOk <;> simp [resolveScene, saveMedia, hcat, hfb, beq_iff_eq]
        · cases tmdbOk <;>
            simp [resolveScene, saveMedia, hcat, hfb, List.isEmpty_iff, beq_iff_eq]
      · cases tmdbOk <;> simp_all [resolveScene, saveMedia, beq_iff_eq]
